import Mathlib

/-!
Verification of the 7z-ffi-sdk streaming archive engine.

This file gives a shallow embedding of the repository's C sources
(src/src/ffi_interface.c and the example programs under src/examples/)
together with spec-modelled definitions for the streaming pipeline and the
AES protocol layer, whose implementations are declared in the missing
header include/7z_ffi.h and are not present under src/.  Theorems at the
end of the file settle the frozen claims about the code.
-/

/-! Error codes.

Modelled from the spec: the header include/7z_ffi.h that defines the
SevenZipErrorCode enumeration is not under src/; only the constant names
appearing in src/src/ffi_interface.c and the examples are known.  The codes
are modelled as distinct integers in C default-enum order; the three error
conditions of the spec's taxonomy that no source file names as a constant
(InvalidResume, WrongPasswordOrCorrupt, Cancelled) are assigned the
subsequent values. -/

def SEVENZIP_OK : Int := 0

def SEVENZIP_ERROR_OPEN_FILE : Int := 1

def SEVENZIP_ERROR_INVALID_ARCHIVE : Int := 2

def SEVENZIP_ERROR_MEMORY : Int := 3

def SEVENZIP_ERROR_EXTRACT : Int := 4

def SEVENZIP_ERROR_COMPRESS : Int := 5

def SEVENZIP_ERROR_INVALID_PARAM : Int := 6

def SEVENZIP_ERROR_NOT_IMPLEMENTED : Int := 7

def SEVENZIP_ERROR_INVALID_RESUME : Int := 8

def SEVENZIP_ERROR_WRONG_PASSWORD : Int := 9

def SEVENZIP_CANCELLED : Int := 10

/-- Embedding of sevenzip_get_error_message (src/src/ffi_interface.c,
lines 36-57): a switch over the error code with a "Unknown error"
default. -/
def sevenzip_get_error_message (error_code : Int) : String :=
  if error_code = SEVENZIP_OK then "Success"
  else if error_code = SEVENZIP_ERROR_OPEN_FILE then "Failed to open file"
  else if error_code = SEVENZIP_ERROR_INVALID_ARCHIVE then "Invalid or corrupted archive"
  else if error_code = SEVENZIP_ERROR_MEMORY then "Memory allocation failed"
  else if error_code = SEVENZIP_ERROR_EXTRACT then "Extraction failed"
  else if error_code = SEVENZIP_ERROR_COMPRESS then "Compression failed"
  else if error_code = SEVENZIP_ERROR_INVALID_PARAM then "Invalid parameter"
  else if error_code = SEVENZIP_ERROR_NOT_IMPLEMENTED then "Feature not implemented"
  else "Unknown error"

/-- The error codes handled by a case of the switch in
sevenzip_get_error_message (everything else falls to the default). -/
def handledErrorCodes : List Int :=
  [SEVENZIP_OK, SEVENZIP_ERROR_OPEN_FILE, SEVENZIP_ERROR_INVALID_ARCHIVE,
   SEVENZIP_ERROR_MEMORY, SEVENZIP_ERROR_EXTRACT, SEVENZIP_ERROR_COMPRESS,
   SEVENZIP_ERROR_INVALID_PARAM, SEVENZIP_ERROR_NOT_IMPLEMENTED]

/-! Global library state (src/src/ffi_interface.c, lines 9-34).

The observable state is the boolean flag g_initialized together with the
number of CrcGenerateTable calls performed, which records how much
initialization work has actually been done. -/

structure LibState where
  g_initialized : Bool
  crc_table_inits : Nat
deriving Repr, DecidableEq

/-- Embedding of sevenzip_init (src/src/ffi_interface.c, lines 12-24):
returns SEVENZIP_OK immediately when already initialized, otherwise
generates the CRC table and sets the flag. -/
def sevenzip_init (s : LibState) : Int × LibState :=
  if s.g_initialized then (SEVENZIP_OK, s)
  else (SEVENZIP_OK, { g_initialized := true, crc_table_inits := s.crc_table_inits + 1 })

/-- Embedding of sevenzip_cleanup (src/src/ffi_interface.c, lines 26-34):
a no-op when not initialized, otherwise clears the flag. -/
def sevenzip_cleanup (s : LibState) : LibState :=
  if s.g_initialized = false then s
  else { s with g_initialized := false }

/-- Iterate sevenzip_init n times over the library state. -/
def initN : Nat → LibState → LibState
  | 0, s => s
  | n + 1, s => (sevenzip_init (initN n s)).2

/-! The archive listing structure freed by sevenzip_free_list
(src/src/ffi_interface.c, lines 63-78).

Pointers are modelled as abstract identifiers (Nat); a nullable pointer is
an Option.  The observable behavior of sevenzip_free_list is the sequence
of free() calls it performs, in order; the model emits the identifier of
each pointer that the C code passes to free(). -/

structure SevenZipListEntry where
  name : Option Nat
deriving Repr, DecidableEq

structure SevenZipList where
  /-- The entries array pointer (with its contents); none models a NULL
  entries pointer.  The C field count is modelled as the length of the
  contents, the precondition under which the loop is memory-safe. -/
  entries : Option (Nat × List SevenZipListEntry)
deriving Repr, DecidableEq

/-- Embedding of sevenzip_free_list (src/src/ffi_interface.c, lines 63-78):
the argument is the nullable list pointer (identifier paired with the
pointed-to structure); the result is the ordered list of pointers passed
to free(). -/
def sevenzip_free_list : Option (Nat × SevenZipList) → List Nat
  | none => []
  | some (listPtr, l) =>
    (match l.entries with
     | none => []
     | some (entriesPtr, es) => (es.filterMap fun e => e.name) ++ [entriesPtr]) ++ [listPtr]

/-- The non-NULL pointers reachable from a SevenZipList structure: the list
pointer itself, the entries array pointer when present, and every non-NULL
entry name. -/
def listPointers (listPtr : Nat) (l : SevenZipList) : List Nat :=
  listPtr ::
    (match l.entries with
     | none => []
     | some (entriesPtr, es) => entriesPtr :: es.filterMap fun e => e.name)

/-! The legacy compression entry point (src/src/ffi_interface.c,
lines 81-103).

The options structure is known from its use in sevenzip_compress; the
fields the stub assigns are modelled, zero-initialized as by the
aggregate initializer.  sevenzip_create_7z itself is declared in the
missing header, so it is a parameter of the embedding. -/

structure SevenZipCompressOptions where
  num_threads : Int
  dict_size : Nat
  solid : Int
  password : Option String
deriving Repr, DecidableEq

/-- The aggregate zero initializer for SevenZipCompressOptions
(the C line SevenZipCompressOptions options = \x7b0\x7d). -/
def SevenZipCompressOptions.zeroed : SevenZipCompressOptions :=
  { num_threads := 0, dict_size := 0, solid := 0, password := none }

/-- Embedding of sevenzip_compress (src/src/ffi_interface.c, lines
81-103): zero-initializes an options value, assigns the four documented
fields one by one as the C code does, and returns the result of the
forwarded sevenzip_create_7z call. -/
def sevenzip_compress {Level CB UD : Type}
    (sevenzip_create_7z :
      String → List String → Level → SevenZipCompressOptions → CB → UD → Int)
    (archive_path : String) (input_paths : List String) (level : Level)
    (password : Option String) (progress_callback : CB) (user_data : UD) : Int :=
  let options0 := SevenZipCompressOptions.zeroed
  let options1 := { options0 with num_threads := 0 }
  let options2 := { options1 with dict_size := 0 }
  let options3 := { options2 with solid := 1 }
  let options4 := { options3 with password := password }
  sevenzip_create_7z archive_path input_paths level options4 progress_callback user_data

/-- The spec's reading of the stub (design note on redirect stubs): a thin
adapter forwarding to the multi-file creator with the default options
written out explicitly. -/
def sevenzip_compress_adapter_spec {Level CB UD : Type}
    (sevenzip_create_7z :
      String → List String → Level → SevenZipCompressOptions → CB → UD → Int)
    (archive_path : String) (input_paths : List String) (level : Level)
    (password : Option String) (progress_callback : CB) (user_data : UD) : Int :=
  sevenzip_create_7z archive_path input_paths level
    { num_threads := 0, dict_size := 0, solid := 1, password := password }
    progress_callback user_data

/-! Size-string parsing.

parse_size (src/examples/forensic_archiver.c, lines 230-245) parses a
numeric value with strtod and multiplies by a binary unit according to the
first unconsumed character.  stream_compress.c (lines 97-100) instead
parses its --split and --chunk arguments with strtoull(str, NULL, 10).
The libc numeric parsers are modelled on their decimal-digit prefixes (the
domain the claims quantify over); the double arithmetic of parse_size is
modelled exactly, which is faithful while the value and product are below
2^53. -/

/-- Consume the leading decimal digits of a character list, folding them
onto the accumulator, and return the value with the unconsumed rest.  This
models strtoull(s, NULL, 10) and strtod on integer inputs. -/
def parseDigits : List Char → Nat → Nat × List Char
  | [], acc => (acc, [])
  | c :: cs, acc =>
    if c.isDigit then parseDigits cs (acc * 10 + (c.toNat - 48))
    else (acc, c :: cs)

/-- The base-10 value denoted by a digit string. -/
def decimalValue (ds : List Char) : Nat :=
  ds.foldl (fun a c => a * 10 + (c.toNat - 48)) 0

/-- Embedding of parse_size (src/examples/forensic_archiver.c, lines
230-245): parse the numeric value, then scale by the unit named by the
first leftover character (either case), defaulting to the bare value. -/
def parse_size (s : List Char) : Nat :=
  let vr := parseDigits s 0
  match vr.2 with
  | [] => vr.1
  | u :: _ =>
    if u = 'k' ∨ u = 'K' then vr.1 * 1024
    else if u = 'm' ∨ u = 'M' then vr.1 * 1024 * 1024
    else if u = 'g' ∨ u = 'G' then vr.1 * 1024 * 1024 * 1024
    else if u = 't' ∨ u = 'T' then vr.1 * 1024 * 1024 * 1024 * 1024
    else vr.1

/-- Embedding of the --split and --chunk argument parsing in
src/examples/stream_compress.c (lines 97-100): strtoull(argv, NULL, 10)
returns the value of the leading digits and ignores everything after
them. -/
def stream_parse_size (s : List Char) : Nat :=
  (parseDigits s 0).1

/-! Progress throughput smoothing
(src/examples/forensic_archiver.c, lines 107-144).

Timestamps are time(NULL) values in whole seconds (Int); the double
speed arithmetic is modelled over the rationals.  The uint64_t
subtraction bytes_processed - last_bytes wraps modulo 2^64. -/

structure ProgressState where
  start_time : Int
  last_bytes : Nat
  last_update_time : Int
  avg_speed : ℚ
  update_count : Nat

/-- The instantaneous speed the callback computes when it refreshes:
the wrapped uint64 byte delta divided by the elapsed whole seconds. -/
def instantaneous_speed (now : Int) (bytes_processed : Nat) (s : ProgressState) : ℚ :=
  (((bytes_processed + 2 ^ 64 - s.last_bytes) % 2 ^ 64 : Nat) : ℚ) /
    ((now - s.last_update_time : Int) : ℚ)

/-- Embedding of the speed-update block of forensic_progress_callback
(src/examples/forensic_archiver.c, lines 126-144): recompute only when the
clock has advanced past the last update second; the first sample seeds the
moving average directly, later samples blend avg_speed * 0.7 with
current_speed * 0.3. -/
def forensic_progress_speed_update (now : Int) (bytes_processed : Nat)
    (s : ProgressState) : ProgressState :=
  if s.last_update_time < now then
    let current_speed := instantaneous_speed now bytes_processed s
    let avg :=
      if s.update_count = 0 then current_speed
      else s.avg_speed * (7 / 10) + current_speed * (3 / 10)
    { s with
      avg_speed := avg
      last_bytes := bytes_processed
      last_update_time := now
      update_count := s.update_count + 1 }
  else s

/-! Encryption subsystem.

Modelled from the spec: sevenzip_init_encryption, sevenzip_init_decryption,
sevenzip_encrypt_data and sevenzip_decrypt_data are declared in the missing
header include/7z_ffi.h and implemented outside src/; only their caller
src/examples/test_aes.c is present.  Following spec section 4.3, the block
cipher primitive and the key-derivation procedure are external
collaborators, so they are parameters of the embedding: an encryption and a
decryption block function over 16-byte blocks, and a deterministic kdf
mapping (password, salt) to a 32-byte key and 16-byte base IV.  Bytes are
naturals below 256; the random salt is an input (randomness is an external
collaborator). -/

/-- Bytewise XOR of two byte strings (truncating to the shorter). -/
def xorBytes (a b : List Nat) : List Nat :=
  List.zipWith (fun x y => x ^^^ y) a b

/-- Pad a plaintext to a whole number of 16-byte blocks; the padding
scheme encodes the pad length in every pad byte (per spec section 4.3 the
scheme embeds enough information to detect and strip the padding). -/
def pkcs7Pad (pt : List Nat) : List Nat :=
  pt ++ List.replicate (16 - pt.length % 16) (16 - pt.length % 16)

/-- Validate and strip the padding: the last byte names the pad length,
which must be between 1 and 16, fit inside the data, and every pad byte
must repeat it; otherwise the padding is structurally invalid. -/
def pkcs7Unpad (data : List Nat) : Option (List Nat) :=
  match data.getLast? with
  | none => none
  | some p =>
    if 1 ≤ p ∧ p ≤ 16 ∧ p ≤ data.length ∧
        (data.drop (data.length - p)).all fun b => b = p then
      some (data.take (data.length - p))
    else none

/-- Split a list into chunks of size n+1 in order (the last chunk may be
shorter); used both for 16-byte cipher blocks and for the pipeline's
fixed-size input chunks. -/
def chunkify (n : Nat) : List α → List (List α)
  | [] => []
  | a :: l => (a :: l.take n) :: chunkify n (l.drop n)
termination_by l => l.length
decreasing_by simp [List.length_drop]; omega

/-- CBC encryption: each plaintext block is XORed with the previous
ciphertext block (the IV first) and passed through the block cipher. -/
def cbcEncrypt (enc : List Nat → List Nat → List Nat) (key iv : List Nat) :
    List (List Nat) → List (List Nat)
  | [] => []
  | b :: bs =>
    let c := enc key (xorBytes iv b)
    c :: cbcEncrypt enc key c bs

/-- CBC decryption: each ciphertext block is deciphered and XORed with the
previous ciphertext block (the IV first). -/
def cbcDecrypt (dec : List Nat → List Nat → List Nat) (key iv : List Nat) :
    List (List Nat) → List (List Nat)
  | [] => []
  | c :: cs => xorBytes iv (dec key c) :: cbcDecrypt dec key c cs

/-- Modelled from the spec (section 4.3): sevenzip_encrypt_data pads the
plaintext to whole 16-byte blocks and encrypts block-by-block under the
derived key and IV. -/
def sevenzip_encrypt_data (enc : List Nat → List Nat → List Nat)
    (key iv pt : List Nat) : List Nat :=
  (cbcEncrypt enc key iv (chunkify 15 (pkcs7Pad pt))).flatten

/-- Modelled from the spec (section 4.3): sevenzip_decrypt_data decrypts
block-by-block and then validates and strips the padding; a structurally
invalid padding (including a ciphertext that is not whole blocks) is the
unambiguous WrongPasswordOrCorrupt error. -/
def sevenzip_decrypt_data (dec : List Nat → List Nat → List Nat)
    (key iv ct : List Nat) : Except Int (List Nat) :=
  if ct.length % 16 = 0 then
    match pkcs7Unpad (cbcDecrypt dec key iv (chunkify 15 ct)).flatten with
    | some pt => .ok pt
    | none => .error SEVENZIP_ERROR_WRONG_PASSWORD
  else .error SEVENZIP_ERROR_WRONG_PASSWORD

/-- Modelled from the spec (section 4.3): sevenzip_init_encryption derives
the key and base IV from the password and the (externally random) fresh
salt via the deterministic kdf collaborator. -/
def sevenzip_init_encryption (kdf : String → List Nat → List Nat × List Nat)
    (password : String) (salt : List Nat) : List Nat × List Nat :=
  kdf password salt

/-- Modelled from the spec (section 4.3): sevenzip_init_decryption
re-derives the same key deterministically from the password and the stored
salt; it never re-randomizes. -/
def sevenzip_init_decryption (kdf : String → List Nat → List Nat × List Nat)
    (password : String) (salt : List Nat) : List Nat :=
  (kdf password salt).1

/-- The k-byte little-endian encoding of a sequence number. -/
def natBytes : Nat → Nat → List Nat
  | 0, _ => []
  | k + 1, n => n % 256 :: natBytes k (n / 256)

/-- Modelled from the spec (section 4.3, per-chunk IV derivation): the
effective IV for chunk n is the base IV XORed with the sequence number, so
any chunk is independently decryptable from its own sequence number. -/
def ivForChunk (iv : List Nat) (n : Nat) : List Nat :=
  xorBytes iv (natBytes 16 n)

/-! Streaming pipeline.

Modelled from the spec: sevenzip_create_7z_streaming and
sevenzip_extract_streaming are implemented outside src/; only their
callers (src/examples/forensic_archiver.c, src/examples/stream_compress.c)
are present.  Following spec sections 4.1, 4.2 and 6, the external codec
and cipher collaborators are bundled as parameters; chunks are read in
file-list order then offset order, compressed, optionally encrypted with
the per-chunk IV of their sequence number, and placed into volumes that
are never allowed to split a chunk.  Reordering across worker threads is
observationally the identity (the writer restores sequence order), so the
model writes chunks in sequence order directly. -/

structure Collaborators where
  codec_compress : Nat → List Nat → List Nat
  codec_decompress : List Nat → List Nat
  encBlock : List Nat → List Nat → List Nat
  decBlock : List Nat → List Nat → List Nat
  kdf : String → List Nat → List Nat × List Nat

/-- Process one chunk for writing: compress it with the external codec,
then encrypt it under the per-chunk IV when a key is configured. -/
def processChunk (C : Collaborators) (level : Nat)
    (keyiv : Option (List Nat × List Nat)) (n : Nat) (raw : List Nat) : List Nat :=
  let comp := C.codec_compress level raw
  match keyiv with
  | none => comp
  | some (key, iv) => sevenzip_encrypt_data C.encBlock key (ivForChunk iv n) comp

/-- Reverse one stored chunk: decrypt it under the per-chunk IV when a key
is configured, then decompress it with the external codec. -/
def unprocessChunk (C : Collaborators)
    (keyiv : Option (List Nat × List Nat)) (n : Nat) (stored : List Nat) :
    Except Int (List Nat) :=
  match keyiv with
  | none => .ok (C.codec_decompress stored)
  | some (key, iv) =>
    (sevenzip_decrypt_data C.decBlock key (ivForChunk iv n) stored).map C.codec_decompress

/-- Map a function over a list together with consecutive sequence numbers
starting at n. -/
def mapWithSeq (f : Nat → α → β) : Nat → List α → List β
  | _, [] => []
  | n, a :: as => f n a :: mapWithSeq f (n + 1) as

/-- Decode a list elementwise with consecutive sequence numbers starting
at n, failing on the first element that fails. -/
def seqDecode (g : Nat → α → Except ε β) : Nat → List α → Except ε (List β)
  | _, [] => .ok []
  | n, a :: as => do
    let b ← g n a
    let bs ← seqDecode g (n + 1) as
    .ok (b :: bs)

/-- Greedy volume placement (spec section 4.2): cur is the open volume in
reverse order with curBytes written; a chunk that would exceed the split
size closes the volume and opens the next, and a chunk larger than the
whole budget is written whole into a fresh volume. -/
def volsAux (splitSize : Nat) (cur : List (List Nat)) (curBytes : Nat) :
    List (List Nat) → List (List (List Nat))
  | [] => if cur.isEmpty then [] else [cur.reverse]
  | c :: rest =>
    if splitSize < curBytes + c.length ∧ ¬cur.isEmpty then
      cur.reverse :: volsAux splitSize [c] c.length rest
    else
      volsAux splitSize (c :: cur) (curBytes + c.length) rest

/-- Split the ordered chunk stream into volumes; a split size of 0 means
no splitting (one volume). -/
def splitVols (splitSize : Nat) (chunks : List (List Nat)) :
    List (List (List Nat)) :=
  if splitSize = 0 then if chunks.isEmpty then [] else [chunks]
  else volsAux splitSize [] 0 chunks

/-- An archive as the pipeline writes it: the input file descriptors
(path, byte size), the stored salt when encrypted, and the processed
chunks distributed over the volumes in sequence order. -/
structure Archive where
  entries : List (String × Nat)
  salt : Option (List Nat)
  volumes : List (List (List Nat))

/-- Write the extracted byte stream back into files of the recorded
sizes, in file-list order. -/
def splitBySizes : List (String × Nat) → List Nat → List (String × List Nat)
  | [], _ => []
  | (name, sz) :: es, bytes => (name, bytes.take sz) :: splitBySizes es (bytes.drop sz)

/-- Modelled from the spec (sections 4.1 and 4.2):
sevenzip_create_7z_streaming chunks each input file in order into chunks
of size chunkPred+1, assigns global sequence numbers, compresses and (when
a password is given) encrypts each chunk under its per-chunk IV, and
places the ordered stream into volumes. -/
def sevenzip_create_7z_streaming (C : Collaborators) (level chunkPred splitSize : Nat)
    (password : Option String) (salt : List Nat)
    (files : List (String × List Nat)) : Archive :=
  let keyiv := password.map fun pw => C.kdf pw salt
  let rawChunks := (files.map fun f => chunkify chunkPred f.2).flatten
  let stored := mapWithSeq (processChunk C level keyiv) 0 rawChunks
  { entries := files.map fun f => (f.1, f.2.length)
    salt := password.map fun _ => salt
    volumes := splitVols splitSize stored }

/-- Modelled from the spec (sections 4.1 and 4.3):
sevenzip_extract_streaming concatenates the volumes back into the ordered
chunk stream, re-derives the key from the password and the stored salt,
reverses every chunk in sequence order, and writes the bytes back into
files of the recorded sizes. -/
def sevenzip_extract_streaming (C : Collaborators) (password : Option String)
    (a : Archive) : Except Int (List (String × List Nat)) :=
  let keyiv :=
    match password, a.salt with
    | some pw, some salt => some (C.kdf pw salt)
    | _, _ => none
  let stored := a.volumes.flatten
  (seqDecode (unprocessChunk C keyiv) 0 stored).map fun raws =>
    splitBySizes a.entries raws.flatten

/-! Concrete instantiations of the external collaborators, used to
exercise the spec-modelled operations on closed inputs: an identity codec
and an identity block cipher (both satisfy the collaborator contracts). -/

def idCollab : Collaborators :=
  { codec_compress := fun _ b => b
    codec_decompress := fun b => b
    encBlock := fun _ b => b
    decBlock := fun _ b => b
    kdf := fun _ _ => ([0], List.replicate 16 0) }

/-- A progress state that has never sampled the speed. -/
def pgFresh : ProgressState :=
  { start_time := 0, last_bytes := 0, last_update_time := 0, avg_speed := 0, update_count := 0 }

/-- A progress state after three speed samples, last updated at second 5. -/
def pgLater : ProgressState :=
  { start_time := 0, last_bytes := 0, last_update_time := 5, avg_speed := 2, update_count := 3 }

/-! Helper lemmas. -/

theorem chunkify_flatten (n : Nat) (l : List α) : (chunkify n l).flatten = l := by
  induction l using chunkify.induct n with
  | case1 => simp [chunkify]
  | case2 a l ih => simp [chunkify, ih]

theorem chunkify16_mem_length (l : List Nat) (h : l.length % 16 = 0) :
    ∀ b ∈ chunkify 15 l, b.length = 16 := by
  induction l using chunkify.induct 15 with
  | case1 => simp [chunkify]
  | case2 a l ih =>
    intro b hb
    have hlen : 15 ≤ l.length := by
      simp only [List.length_cons] at h
      omega
    rw [chunkify] at hb
    rcases List.mem_cons.1 hb with hb | hb
    · subst hb
      simp only [List.length_cons, List.length_take]
      omega
    · refine ih ?_ b hb
      simp only [List.length_cons] at h
      simp only [List.length_drop]
      omega

theorem flatten_uniform16_mod (bs : List (List Nat)) (h : ∀ b ∈ bs, b.length = 16) :
    bs.flatten.length % 16 = 0 := by
  induction bs with
  | nil => simp
  | cons b bs ih =>
    have hb : b.length = 16 := h b (List.mem_cons_self b bs)
    have := ih fun x hx => h x (List.mem_cons_of_mem b hx)
    simp only [List.flatten_cons, List.length_append, hb]
    omega

theorem chunkify16_flatten_uniform (bs : List (List Nat)) (h : ∀ b ∈ bs, b.length = 16) :
    chunkify 15 bs.flatten = bs := by
  induction bs with
  | nil => simp [chunkify]
  | cons b bs ih =>
    have hb : b.length = 16 := h b (List.mem_cons_self b bs)
    cases b with
    | nil => simp at hb
    | cons x t =>
      have ht : t.length = 15 := by simpa using hb
      simp only [List.flatten_cons, List.cons_append, chunkify]
      rw [List.take_left' ht, List.drop_left' ht]
      exact congrArg _ (ih fun y hy => h y (List.mem_cons_of_mem _ hy))

theorem xorBytes_length (a b : List Nat) : (xorBytes a b).length = min a.length b.length :=
  List.length_zipWith _ a b

theorem xorBytes_cancel : ∀ (b a : List Nat), b.length ≤ a.length →
    xorBytes a (xorBytes a b) = b := by
  intro b
  induction b with
  | nil => intro a _; simp [xorBytes]
  | cons x bt ih =>
    intro a hle
    cases a with
    | nil => simp at hle
    | cons y at' =>
      simp only [xorBytes, List.zipWith_cons_cons, Nat.xor_cancel_left]
      exact congrArg _ (ih at' (by simpa using hle))

theorem cbcEncrypt_uniform16 (enc : List Nat → List Nat → List Nat) (key : List Nat)
    (hLen : ∀ k b, b.length = 16 → (enc k b).length = 16) :
    ∀ (bs : List (List Nat)) (iv : List Nat), iv.length = 16 →
      (∀ b ∈ bs, b.length = 16) → ∀ c ∈ cbcEncrypt enc key iv bs, c.length = 16 := by
  intro bs
  induction bs with
  | nil => intro iv _ _ c hc; simp [cbcEncrypt] at hc
  | cons b bs ih =>
    intro iv hiv hbs c hc
    have hb : b.length = 16 := hbs b (List.mem_cons_self b bs)
    have hxor : (xorBytes iv b).length = 16 := by
      rw [xorBytes_length, hiv, hb]; exact min_self 16
    have hcl : (enc key (xorBytes iv b)).length = 16 := hLen key _ hxor
    simp only [cbcEncrypt] at hc
    rcases List.mem_cons.1 hc with hc | hc
    · subst hc; exact hcl
    · exact ih (enc key (xorBytes iv b)) hcl
        (fun x hx => hbs x (List.mem_cons_of_mem b hx)) c hc

theorem cbcDecrypt_cbcEncrypt (enc dec : List Nat → List Nat → List Nat) (key : List Nat)
    (hDE : ∀ k b, dec k (enc k b) = b)
    (hLen : ∀ k b, b.length = 16 → (enc k b).length = 16) :
    ∀ (bs : List (List Nat)) (iv : List Nat), iv.length = 16 →
      (∀ b ∈ bs, b.length = 16) →
      cbcDecrypt dec key iv (cbcEncrypt enc key iv bs) = bs := by
  intro bs
  induction bs with
  | nil => intro iv _ _; simp [cbcEncrypt, cbcDecrypt]
  | cons b bs ih =>
    intro iv hiv hbs
    have hb : b.length = 16 := hbs b (List.mem_cons_self b bs)
    have hxor : (xorBytes iv b).length = 16 := by
      rw [xorBytes_length, hiv, hb]; exact min_self 16
    simp only [cbcEncrypt, cbcDecrypt, hDE]
    rw [xorBytes_cancel b iv (by omega),
      ih (enc key (xorBytes iv b)) (hLen key _ hxor)
        fun x hx => hbs x (List.mem_cons_of_mem b hx)]

theorem pkcs7Pad_length_mod (pt : List Nat) : (pkcs7Pad pt).length % 16 = 0 := by
  simp only [pkcs7Pad, List.length_append, List.length_replicate]
  omega

theorem pkcs7Unpad_pkcs7Pad (pt : List Nat) : pkcs7Unpad (pkcs7Pad pt) = some pt := by
  set p := 16 - pt.length % 16 with hp
  have hp1 : 1 ≤ p := by omega
  have hp16 : p ≤ 16 := by omega
  have hdecomp : pkcs7Pad pt = (pt ++ List.replicate (p - 1) p) ++ [p] := by
    rw [pkcs7Pad, ← hp, List.append_assoc]
    have hrep : List.replicate p p = List.replicate (p - 1) p ++ [p] := by
      obtain ⟨q, hq⟩ : ∃ q, p = q + 1 := ⟨p - 1, by omega⟩
      rw [hq, List.replicate_succ' q (q + 1)]
      simp
    rw [hrep]
  have hlast : (pkcs7Pad pt).getLast? = some p := by
    rw [hdecomp]; exact List.getLast?_concat _
  have hlen : (pkcs7Pad pt).length = pt.length + p := by
    simp [pkcs7Pad, ← hp]
  have hdropall : ((pkcs7Pad pt).drop ((pkcs7Pad pt).length - p)).all (fun b => b = p) = true := by
    have hsub : (pkcs7Pad pt).length - p = pt.length := by omega
    rw [hsub, pkcs7Pad, ← hp, List.drop_left' rfl]
    simp [List.all_eq_true, List.mem_replicate]
  have htake : (pkcs7Pad pt).take ((pkcs7Pad pt).length - p) = pt := by
    have hsub : (pkcs7Pad pt).length - p = pt.length := by omega
    rw [hsub, pkcs7Pad, ← hp, List.take_left' rfl]
  simp only [pkcs7Unpad, hlast]
  rw [if_pos ⟨hp1, hp16, by omega, hdropall⟩, htake]

theorem sevenzip_decrypt_encrypt (enc dec : List Nat → List Nat → List Nat)
    (key iv pt : List Nat)
    (hDE : ∀ k b, dec k (enc k b) = b)
    (hLen : ∀ k b, b.length = 16 → (enc k b).length = 16)
    (hiv : iv.length = 16) :
    sevenzip_decrypt_data dec key iv (sevenzip_encrypt_data enc key iv pt) = .ok pt := by
  have hblocks : ∀ b ∈ chunkify 15 (pkcs7Pad pt), b.length = 16 :=
    chunkify16_mem_length _ (pkcs7Pad_length_mod pt)
  have hct : ∀ c ∈ cbcEncrypt enc key iv (chunkify 15 (pkcs7Pad pt)), c.length = 16 :=
    cbcEncrypt_uniform16 enc key hLen _ iv hiv hblocks
  rw [sevenzip_decrypt_data, sevenzip_encrypt_data,
    if_pos (flatten_uniform16_mod _ hct), chunkify16_flatten_uniform _ hct,
    cbcDecrypt_cbcEncrypt enc dec key hDE hLen _ iv hiv hblocks,
    chunkify_flatten, pkcs7Unpad_pkcs7Pad]

theorem natBytes_length (k : Nat) : ∀ n, (natBytes k n).length = k := by
  induction k with
  | zero => intro n; rfl
  | succ k ih => intro n; simp [natBytes, ih]

theorem ivForChunk_length (iv : List Nat) (n : Nat) (h : iv.length = 16) :
    (ivForChunk iv n).length = 16 := by
  rw [ivForChunk, xorBytes_length, h, natBytes_length]
  exact min_self 16

theorem seqDecode_mapWithSeq {α β ε : Type} (f : Nat → α → β) (g : Nat → β → Except ε α)
    (h : ∀ n a, g n (f n a) = .ok a) :
    ∀ (l : List α) (n : Nat), seqDecode g n (mapWithSeq f n l) = .ok l := by
  intro l
  induction l with
  | nil => intro n; rfl
  | cons a as ih =>
    intro n
    simp only [mapWithSeq, seqDecode, h n a, ih (n + 1)]
    rfl

theorem volsAux_flatten (splitSize : Nat) :
    ∀ (rest cur : List (List Nat)) (curBytes : Nat),
      (volsAux splitSize cur curBytes rest).flatten = cur.reverse ++ rest := by
  intro rest
  induction rest with
  | nil =>
    intro cur curBytes
    by_cases hcur : cur.isEmpty
    · rw [volsAux, if_pos hcur]
      rw [List.isEmpty_iff] at hcur
      simp [hcur]
    · rw [volsAux, if_neg hcur]; simp
  | cons c rest ih =>
    intro cur curBytes
    rw [volsAux]
    by_cases hfull : splitSize < curBytes + c.length ∧ ¬cur.isEmpty
    · rw [if_pos hfull]
      simp [ih]
    · rw [if_neg hfull]
      simp [ih]

theorem splitVols_flatten (splitSize : Nat) (chunks : List (List Nat)) :
    (splitVols splitSize chunks).flatten = chunks := by
  rw [splitVols]
  by_cases h0 : splitSize = 0
  · rw [if_pos h0]
    by_cases hc : chunks.isEmpty
    · rw [if_pos hc, List.isEmpty_iff] at *
      simp [hc]
    · rw [if_neg hc]; simp
  · rw [if_neg h0, volsAux_flatten]
    simp

theorem flatten_chunkify_map (chunkPred : Nat) (files : List (String × List Nat)) :
    ((files.map fun f => chunkify chunkPred f.2).flatten).flatten =
      (files.map fun f => f.2).flatten := by
  induction files with
  | nil => rfl
  | cons f fs ih =>
    simp only [List.map_cons, List.flatten_cons, List.flatten_append, chunkify_flatten, ih]

theorem splitBySizes_flatten :
    ∀ files : List (String × List Nat),
      splitBySizes (files.map fun f => (f.1, f.2.length))
        ((files.map fun f => f.2).flatten) = files := by
  intro files
  induction files with
  | nil => rfl
  | cons f fs ih =>
    simp only [List.map_cons, List.flatten_cons, splitBySizes,
      List.take_left' rfl, List.drop_left' rfl, ih]

theorem parseDigits_append_digits (t : List Char) :
    ∀ (ds : List Char) (acc : Nat), (∀ c ∈ ds, c.isDigit) →
      parseDigits (ds ++ t) acc =
        parseDigits t (ds.foldl (fun a c => a * 10 + (c.toNat - 48)) acc) := by
  intro ds
  induction ds with
  | nil => intro acc _; rfl
  | cons c cs ih =>
    intro acc hd
    have hc : c.isDigit := hd c (List.mem_cons_self c cs)
    simp only [List.cons_append, parseDigits, if_pos hc, List.foldl_cons]
    exact ih _ fun x hx => hd x (List.mem_cons_of_mem c hx)

theorem parseDigits_nondigit (u : Char) (r : List Char) (acc : Nat) (hu : ¬u.isDigit) :
    parseDigits (u :: r) acc = (acc, u :: r) := by
  simp only [parseDigits, if_neg hu]

theorem parseDigits_all_digits (ds : List Char) (acc : Nat) (hd : ∀ c ∈ ds, c.isDigit) :
    parseDigits ds acc = (ds.foldl (fun a c => a * 10 + (c.toNat - 48)) acc, []) := by
  have := parseDigits_append_digits [] ds acc hd
  simpa using this

/-! Claim theorems. -/

/-- C4, counterexample: the spec's taxonomy names InvalidResume,
WrongPasswordOrCorrupt and Cancelled, but the switch in
sevenzip_get_error_message has no case for them, so they fall to the
generic "Unknown error" default instead of a specific message. -/
theorem C4_unhandled_codes_counterexample :
    sevenzip_get_error_message SEVENZIP_ERROR_INVALID_RESUME = "Unknown error" ∧
    sevenzip_get_error_message SEVENZIP_ERROR_WRONG_PASSWORD = "Unknown error" ∧
    sevenzip_get_error_message SEVENZIP_CANCELLED = "Unknown error" := by
  decide

/-- C4, amended: sevenzip_get_error_message maps the seven error codes its
switch handles (OpenFileFailed through NotImplemented) to pairwise
distinct human-readable messages, each different from the generic
"Unknown error" default, while the taxonomy's InvalidResume,
WrongPasswordOrCorrupt and Cancelled conditions all map to the default. -/
theorem C4_error_messages_specific :
    (((handledErrorCodes.drop 1).map sevenzip_get_error_message).Pairwise fun a b => ¬a = b) ∧
    (∀ m ∈ (handledErrorCodes.drop 1).map sevenzip_get_error_message, ¬m = "Unknown error") ∧
    sevenzip_get_error_message SEVENZIP_ERROR_INVALID_RESUME = "Unknown error" ∧
    sevenzip_get_error_message SEVENZIP_ERROR_WRONG_PASSWORD = "Unknown error" ∧
    sevenzip_get_error_message SEVENZIP_CANCELLED = "Unknown error" := by
  decide

/-- C7: sevenzip_compress is exactly the forwarding of its arguments to
sevenzip_create_7z together with the default options (num_threads 0 for
auto, dict_size 0 for auto, solid 1, the given password); its result is
the forwarded call's result and it performs no other observable work. -/
theorem C7_compress_redirects_to_create_7z {Level CB UD : Type}
    (create_7z : String → List String → Level → SevenZipCompressOptions → CB → UD → Int)
    (archive_path : String) (input_paths : List String) (level : Level)
    (password : Option String) (progress_callback : CB) (user_data : UD) :
    sevenzip_compress create_7z archive_path input_paths level password
        progress_callback user_data =
      sevenzip_compress_adapter_spec create_7z archive_path input_paths level password
        progress_callback user_data :=
  rfl

/-- C8: sevenzip_init always returns SEVENZIP_OK and leaves the state
initialized; a call when already initialized performs no work (the state
is unchanged, in particular no further CRC table generation); a cleanup
when not initialized is a no-op; and because the guard is a boolean flag,
a single cleanup returns the library to the uninitialized state no matter
how many init calls preceded it. -/
theorem C8_init_cleanup_flag_semantics :
    (∀ s : LibState, (sevenzip_init s).1 = SEVENZIP_OK) ∧
    (∀ s : LibState, (sevenzip_init s).2.g_initialized = true) ∧
    (∀ s : LibState, s.g_initialized = true → (sevenzip_init s).2 = s) ∧
    (∀ s : LibState, s.g_initialized = false → sevenzip_cleanup s = s) ∧
    (∀ (n : Nat) (s : LibState), (sevenzip_cleanup (initN n s)).g_initialized = false) := by
  refine ⟨?_, ?_, ?_, ?_, ?_⟩
  · intro s; unfold sevenzip_init; split_ifs <;> rfl
  · intro s; unfold sevenzip_init; split_ifs with h
    · exact h
    · rfl
  · intro s h; simp [sevenzip_init, h]
  · intro s h; simp [sevenzip_cleanup, h]
  · intro n s
    unfold sevenzip_cleanup
    split_ifs with h
    · exact h
    · rfl

/-- C8, witness: the semantics at concrete states. -/
theorem C8_init_cleanup_flag_semantics_witness :
    (sevenzip_init ⟨false, 0⟩).1 = SEVENZIP_OK ∧
    (sevenzip_init ⟨true, 1⟩).2 = (⟨true, 1⟩ : LibState) ∧
    sevenzip_cleanup ⟨false, 0⟩ = (⟨false, 0⟩ : LibState) ∧
    (sevenzip_cleanup (initN 3 ⟨false, 0⟩)).g_initialized = false :=
  ⟨C8_init_cleanup_flag_semantics.1 ⟨false, 0⟩,
   C8_init_cleanup_flag_semantics.2.2.1 ⟨true, 1⟩ rfl,
   C8_init_cleanup_flag_semantics.2.2.2.1 ⟨false, 0⟩ rfl,
   C8_init_cleanup_flag_semantics.2.2.2.2 3 ⟨false, 0⟩⟩

/-- C9: sevenzip_get_error_message is total: it returns a non-empty
message for every integer error code, and every code outside the switch's
handled cases gets the "Unknown error" default. -/
theorem C9_error_message_total (c : Int) :
    sevenzip_get_error_message c ≠ "" ∧
    (c ∉ handledErrorCodes → sevenzip_get_error_message c = "Unknown error") := by
  constructor
  · unfold sevenzip_get_error_message
    split_ifs <;> decide
  · intro hmem
    simp only [handledErrorCodes, List.mem_cons, List.not_mem_nil, or_false, not_or] at hmem
    obtain ⟨h0, h1, h2, h3, h4, h5, h6, h7⟩ := hmem
    unfold sevenzip_get_error_message
    rw [if_neg h0, if_neg h1, if_neg h2, if_neg h3, if_neg h4, if_neg h5, if_neg h6, if_neg h7]

/-- C9, witness: the out-of-range code 42 gets a message, namely the
default one. -/
theorem C9_error_message_total_witness :
    sevenzip_get_error_message 42 ≠ "" ∧ sevenzip_get_error_message 42 = "Unknown error" :=
  ⟨(C9_error_message_total 42).1, (C9_error_message_total 42).2 (by decide)⟩

/-- C10: sevenzip_free_list frees nothing when called with NULL, and on a
non-NULL list it frees exactly the non-NULL pointers of the structure (the
entry names that are present, the entries array when present, and the list
itself), so no code path passes NULL to free or dereferences a NULL
pointer. -/
theorem C10_free_list_null_safe :
    sevenzip_free_list none = [] ∧
    ∀ (listPtr : Nat) (l : SevenZipList) (x : Nat),
      x ∈ sevenzip_free_list (some (listPtr, l)) ↔ x ∈ listPointers listPtr l := by
  refine ⟨rfl, ?_⟩
  intro p l x
  rcases hl : l.entries with _ | ⟨ep, es⟩
  · simp [sevenzip_free_list, listPointers, hl]
  · simp only [sevenzip_free_list, listPointers, hl, List.mem_append, List.mem_cons,
      List.mem_singleton, List.not_mem_nil]
    tauto

/-- C5: the throughput estimate is recomputed only when the clock has
advanced past the second of the previous update (and an update stamps that
second), so at most once per elapsed second; the first sample sets the
smoothed speed to the instantaneous speed directly, and every later sample
sets it to 0.3 times the instantaneous speed plus 0.7 times the previous
average. -/
theorem C5_progress_speed_smoothing (s : ProgressState) (now : Int) (bytes_processed : Nat) :
    (now ≤ s.last_update_time →
      forensic_progress_speed_update now bytes_processed s = s) ∧
    (s.last_update_time < now →
      (forensic_progress_speed_update now bytes_processed s).last_update_time = now ∧
      (s.update_count = 0 →
        (forensic_progress_speed_update now bytes_processed s).avg_speed =
          instantaneous_speed now bytes_processed s) ∧
      (s.update_count ≠ 0 →
        (forensic_progress_speed_update now bytes_processed s).avg_speed =
          3 / 10 * instantaneous_speed now bytes_processed s + 7 / 10 * s.avg_speed)) := by
  constructor
  · intro h
    rw [forensic_progress_speed_update, if_neg (by omega)]
  · intro h
    refine ⟨?_, ?_, ?_⟩
    · simp only [forensic_progress_speed_update, if_pos h]
    · intro h0
      simp only [forensic_progress_speed_update, if_pos h, h0, if_true]
    · intro h0
      simp only [forensic_progress_speed_update, if_pos h, if_neg h0]
      ring

/-- C5, witness: the smoothing behavior at concrete states, before the
first sample and after three samples. -/
theorem C5_progress_speed_smoothing_witness :
    forensic_progress_speed_update 3 7 pgLater = pgLater ∧
    (forensic_progress_speed_update 9 7 pgLater).last_update_time = 9 ∧
    (forensic_progress_speed_update 9 7 pgLater).avg_speed =
      3 / 10 * instantaneous_speed 9 7 pgLater + 7 / 10 * pgLater.avg_speed ∧
    (forensic_progress_speed_update 3 7 pgFresh).avg_speed = instantaneous_speed 3 7 pgFresh :=
  ⟨(C5_progress_speed_smoothing pgLater 3 7).1 (by decide),
   ((C5_progress_speed_smoothing pgLater 9 7).2 (by decide)).1,
   ((C5_progress_speed_smoothing pgLater 9 7).2 (by decide)).2.2 (by decide),
   ((C5_progress_speed_smoothing pgFresh 3 7).2 (by decide)).2.1 rfl⟩

/-- C6, counterexample: stream_compress.c parses its --split and --chunk
size arguments with strtoull, so the command-surface argument 4g parses as
4 bytes there, not as 4 binary gigabytes. -/
theorem C6_stream_size_suffix_counterexample :
    ¬stream_parse_size ['4', 'g'] = 4 * 1024 * 1024 * 1024 ∧
    stream_parse_size ['4', 'g'] = 4 := by
  decide

/-- Helper for C6: on a digit string followed by one non-digit unit
character, parse_size scales the decimal value by the unit's binary
multiple. -/
theorem parse_size_digits_suffix (ds : List Char) (u : Char)
    (hds : ∀ c ∈ ds, c.isDigit) (hnd : ¬u.isDigit) :
    parse_size (ds ++ [u]) =
      (if u = 'k' ∨ u = 'K' then decimalValue ds * 1024
       else if u = 'm' ∨ u = 'M' then decimalValue ds * 1024 * 1024
       else if u = 'g' ∨ u = 'G' then decimalValue ds * 1024 * 1024 * 1024
       else if u = 't' ∨ u = 'T' then decimalValue ds * 1024 * 1024 * 1024 * 1024
       else decimalValue ds) := by
  simp only [parse_size, parseDigits_append_digits [u] ds 0 hds,
    parseDigits_nondigit u [] _ hnd, decimalValue]

/-- C6, amended: forensic_archiver's parse_size accepts the suffixes k, m,
g and t in either case as binary multiples of the parsed decimal value and
parses a bare number as that number of bytes, but stream_compress's
--split and --chunk arguments parse only the leading decimal digits and
ignore any suffix. -/
theorem C6_size_suffix_parsing (ds : List Char) (u : Char) (mult : Nat) (r : List Char)
    (hds : ∀ c ∈ ds, c.isDigit)
    (hu : (u, mult) ∈ [('k', 1024), ('K', 1024), ('m', 1024 * 1024), ('M', 1024 * 1024),
      ('g', 1024 * 1024 * 1024), ('G', 1024 * 1024 * 1024),
      ('t', 1024 * 1024 * 1024 * 1024), ('T', 1024 * 1024 * 1024 * 1024)]) :
    parse_size (ds ++ [u]) = decimalValue ds * mult ∧
    parse_size ds = decimalValue ds ∧
    stream_parse_size (ds ++ u :: r) = decimalValue ds ∧
    stream_parse_size ds = decimalValue ds := by
  have hv := parseDigits_all_digits ds 0 hds
  have hbare_ps : parse_size ds = decimalValue ds := by
    simp only [parse_size, hv, decimalValue]
  have hbare_ss : stream_parse_size ds = decimalValue ds := by
    simp only [stream_parse_size, hv, decimalValue]
  have hstream : ¬u.isDigit → stream_parse_size (ds ++ u :: r) = decimalValue ds := by
    intro hnd
    rw [stream_parse_size, parseDigits_append_digits (u :: r) ds 0 hds,
      parseDigits_nondigit u r _ hnd, decimalValue]
  simp only [List.mem_cons, List.mem_singleton, Prod.mk.injEq, List.not_mem_nil, or_false]
    at hu
  obtain hm | hm | hm | hm | hm | hm | hm | hm := hu
  all_goals obtain ⟨rfl, rfl⟩ := hm
  · exact ⟨by rw [parse_size_digits_suffix ds _ hds (by decide), if_pos (by decide)],
      hbare_ps, hstream (by decide), hbare_ss⟩
  · exact ⟨by rw [parse_size_digits_suffix ds _ hds (by decide), if_pos (by decide)],
      hbare_ps, hstream (by decide), hbare_ss⟩
  · refine ⟨?_, hbare_ps, hstream (by decide), hbare_ss⟩
    rw [parse_size_digits_suffix ds _ hds (by decide), if_neg (by decide),
      if_pos (by decide)]
    ring
  · refine ⟨?_, hbare_ps, hstream (by decide), hbare_ss⟩
    rw [parse_size_digits_suffix ds _ hds (by decide), if_neg (by decide),
      if_pos (by decide)]
    ring
  · refine ⟨?_, hbare_ps, hstream (by decide), hbare_ss⟩
    rw [parse_size_digits_suffix ds _ hds (by decide), if_neg (by decide),
      if_neg (by decide), if_pos (by decide)]
    ring
  · refine ⟨?_, hbare_ps, hstream (by decide), hbare_ss⟩
    rw [parse_size_digits_suffix ds _ hds (by decide), if_neg (by decide),
      if_neg (by decide), if_pos (by decide)]
    ring
  · refine ⟨?_, hbare_ps, hstream (by decide), hbare_ss⟩
    rw [parse_size_digits_suffix ds _ hds (by decide), if_neg (by decide),
      if_neg (by decide), if_neg (by decide), if_pos (by decide)]
    ring
  · refine ⟨?_, hbare_ps, hstream (by decide), hbare_ss⟩
    rw [parse_size_digits_suffix ds _ hds (by decide), if_neg (by decide),
      if_neg (by decide), if_neg (by decide), if_pos (by decide)]
    ring

/-- C6, witness: the amended parsing behavior on the concrete argument 42m
(and 42 followed by m plus trailing text for the stream parser). -/
theorem C6_size_suffix_parsing_witness :
    parse_size ['4', '2', 'm'] = decimalValue ['4', '2'] * (1024 * 1024) ∧
    parse_size ['4', '2'] = decimalValue ['4', '2'] ∧
    stream_parse_size ['4', '2', 'm', 'x'] = decimalValue ['4', '2'] ∧
    stream_parse_size ['4', '2'] = decimalValue ['4', '2'] :=
  C6_size_suffix_parsing ['4', '2'] 'm' (1024 * 1024) ['x'] (by decide) (by decide)

/-- C2: for every plaintext and password, initializing encryption from the
password (key, IV and salt), encrypting with sevenzip_encrypt_data, then
re-deriving the key with sevenzip_init_decryption from the same password
and salt and decrypting with sevenzip_decrypt_data under the same IV
yields exactly the original plaintext, assuming only the block-cipher
collaborator contract (decryption inverts encryption on 16-byte blocks,
which it maps to 16-byte blocks) and a 16-byte derived IV. -/
theorem C2_password_roundtrip (enc dec : List Nat → List Nat → List Nat)
    (kdf : String → List Nat → List Nat × List Nat) (password : String) (salt pt : List Nat)
    (hDE : ∀ k b, dec k (enc k b) = b)
    (hLen : ∀ k b, b.length = 16 → (enc k b).length = 16)
    (hIVlen : (sevenzip_init_encryption kdf password salt).2.length = 16) :
    sevenzip_decrypt_data dec (sevenzip_init_decryption kdf password salt)
      (sevenzip_init_encryption kdf password salt).2
      (sevenzip_encrypt_data enc (sevenzip_init_encryption kdf password salt).1
        (sevenzip_init_encryption kdf password salt).2 pt) = .ok pt := by
  have hkey : sevenzip_init_decryption kdf password salt =
      (sevenzip_init_encryption kdf password salt).1 := rfl
  rw [hkey]
  exact sevenzip_decrypt_encrypt enc dec _ _ pt hDE hLen hIVlen

/-- C2, witness: the round trip at the identity block cipher, a constant
key-derivation collaborator, the documented test password and a concrete
two-byte plaintext. -/
theorem C2_password_roundtrip_witness :
    sevenzip_decrypt_data (fun _ b => b)
      (sevenzip_init_decryption (fun _ _ => ([0], List.replicate 16 0))
        "TestPassword123!" (List.replicate 16 1))
      (sevenzip_init_encryption (fun _ _ => ([0], List.replicate 16 0))
        "TestPassword123!" (List.replicate 16 1)).2
      (sevenzip_encrypt_data (fun _ b => b)
        (sevenzip_init_encryption (fun _ _ => ([0], List.replicate 16 0))
          "TestPassword123!" (List.replicate 16 1)).1
        (sevenzip_init_encryption (fun _ _ => ([0], List.replicate 16 0))
          "TestPassword123!" (List.replicate 16 1)).2
        [104, 105]) = .ok [104, 105] :=
  C2_password_roundtrip (fun _ b => b) (fun _ b => b) (fun _ _ => ([0], List.replicate 16 0))
    "TestPassword123!" (List.replicate 16 1) [104, 105]
    (fun _ _ => rfl) (fun _ _ h => h) rfl

/-- C1: extracting the archive produced by the streaming creator with the
same password reproduces the input files byte for byte, for every file
list, password (including none), chunk size, split size and salt, assuming
only the collaborator contracts of spec section 6: the codec inverts
itself, and the block cipher inverts itself on 16-byte blocks, which it
preserves, with a 16-byte derived base IV. -/
theorem C1_streaming_roundtrip (C : Collaborators) (level chunkPred splitSize : Nat)
    (password : Option String) (salt : List Nat) (files : List (String × List Nat))
    (hCodec : ∀ lvl b, C.codec_decompress (C.codec_compress lvl b) = b)
    (hDE : ∀ k b, C.decBlock k (C.encBlock k b) = b)
    (hLen : ∀ k b, b.length = 16 → (C.encBlock k b).length = 16)
    (hKdfIV : ∀ pw s, (C.kdf pw s).2.length = 16) :
    sevenzip_extract_streaming C password
        (sevenzip_create_7z_streaming C level chunkPred splitSize password salt files) =
      .ok files := by
  cases password with
  | none =>
    simp only [sevenzip_create_7z_streaming, sevenzip_extract_streaming, Option.map_none']
    rw [splitVols_flatten,
      seqDecode_mapWithSeq (processChunk C level none) (unprocessChunk C none)
        (fun n c => by simp [processChunk, unprocessChunk, hCodec]) _ 0]
    simp only [Except.map]
    rw [flatten_chunkify_map, splitBySizes_flatten]
  | some pw =>
    have hchunk : ∀ n c,
        unprocessChunk C (some (C.kdf pw salt)) n
          (processChunk C level (some (C.kdf pw salt)) n c) = .ok c := by
      intro n c
      rcases hkv : C.kdf pw salt with ⟨key, iv⟩
      have hivlen : iv.length = 16 := by
        have := hKdfIV pw salt
        rw [hkv] at this
        exact this
      simp only [processChunk, unprocessChunk]
      rw [sevenzip_decrypt_encrypt C.encBlock C.decBlock key (ivForChunk iv n) _
        hDE hLen (ivForChunk_length iv n hivlen)]
      simp [Except.map, hCodec]
    simp only [sevenzip_create_7z_streaming, sevenzip_extract_streaming, Option.map_some']
    rw [splitVols_flatten,
      seqDecode_mapWithSeq (processChunk C level (some (C.kdf pw salt)))
        (unprocessChunk C (some (C.kdf pw salt))) hchunk _ 0]
    simp only [Except.map]
    rw [flatten_chunkify_map, splitBySizes_flatten]

/-- C1, witness: the round trip at the identity codec and identity block
cipher, with a password, chunk size 2, split size 3 and two concrete
files. -/
theorem C1_streaming_roundtrip_witness :
    sevenzip_extract_streaming idCollab (some "p")
        (sevenzip_create_7z_streaming idCollab 5 1 3 (some "p") (List.replicate 16 5)
          [("a", [1, 2, 3]), ("b", [4])]) =
      .ok [("a", [1, 2, 3]), ("b", [4])] :=
  C1_streaming_roundtrip idCollab 5 1 3 (some "p") (List.replicate 16 5)
    [("a", [1, 2, 3]), ("b", [4])]
    (fun _ _ => rfl) (fun _ _ => rfl) (fun _ _ h => h) (fun _ _ => rfl)
